import Mathlib

set_option autoImplicit false

namespace Forms

/-! Shallow embedding of `forms.go`, a declarative HTML form-field library.
Go error values are modelled by their message string; a Go `nil` error is
`Option.none`.  Go maps are modelled as association lists with unique keys;
a Go `nil` map is `Option.none` (reads from it succeed and yield nothing,
writes to it panic). -/

abbrev GoError := String

/-- `FieldError` is a field validation error (a name / cause pair). -/
structure FieldError where
  name : String
  error : GoError
  deriving DecidableEq

/-- `NewFieldError` creates a new instance of `FieldError`. -/
def NewFieldError (name : String) (err : GoError) : FieldError :=
  { name := name, error := err }

/-- The data part of an `Input` (everything a validator can read): type,
name, value, classes, numeric bounds, required flag and the attribute map.
`attrs = none` models a nil Go map. -/
structure InputData where
  typ : String
  name : String
  value : String
  classes : List String
  min : Int
  max : Int
  required : Bool
  attrs : Option (List (String × String))

/-- `Input` is the base field: its data plus the ordered validator pipeline.
A validator receives the field state and returns an error or nothing. -/
structure Input where
  data : InputData
  validators : List (InputData → Option GoError)

/-- `NewInput` creates a new text input field: empty classes, an initialized
(empty, non-nil) attribute map, type `"text"`, empty validator pipeline. -/
def NewInput : Input :=
  { data := { typ := "text", name := "", value := "", classes := [],
              min := 0, max := 0, required := false, attrs := some [] }
    validators := [] }

/-- `Name` returns the name of the field. -/
def Input.Name (i : Input) : String :=
  i.data.name

/-- `SetName` sets the name of the field. -/
def Input.SetName (i : Input) (n : String) : Input :=
  { i with data := { i.data with name := n } }

/-- `AddClass` appends the given class to the slice. -/
def Input.AddClass (i : Input) (cls : String) : Input :=
  { i with data := { i.data with classes := i.data.classes ++ [cls] } }

/-- Go map assignment `m[k] = v` on an association list: replaces the entry
with key `k` when present, otherwise appends a new entry. -/
def mapSet {α : Type} : List (String × α) → String → α → List (String × α)
  | [], k, v => [(k, v)]
  | p :: rest, k, v => if p.1 = k then (k, v) :: rest else p :: mapSet rest k v

/-- `AddAttr` stores the given attribute in the map; writing to a nil map
(`attrs = none`) is a runtime fault, modelled as `none`. -/
def Input.AddAttr (i : Input) (key value : String) : Option Input :=
  match i.data.attrs with
  | none => none
  | some m => some { i with data := { i.data with attrs := some (mapSet m key value) } }

/-- `AddValidator` appends the given validator to the pipeline. -/
def Input.AddValidator (i : Input) (v : InputData → Option GoError) : Input :=
  { i with validators := i.validators ++ [v] }

/-- Entries readable from an attribute map; reading a nil map yields nothing. -/
def attrsEntries : Option (List (String × String)) → List (String × String)
  | none => []
  | some m => m

/-- `FmtAttrs` formats the attributes to `key='value'` format, joined by
spaces. -/
def Input.FmtAttrs (i : Input) : String :=
  String.intercalate " " ((attrsEntries i.data.attrs).map (fun p => p.1 ++ "='" ++ p.2 ++ "'"))

/-- `String` renders the input element (named `toString` here since `String`
would shadow the string type). -/
def Input.toString (i : Input) : String :=
  "<input type='" ++ i.data.typ ++ "' name='" ++ i.data.name ++ "' value='" ++
    i.data.value ++ "' class='" ++ String.intercalate " " i.data.classes ++ "' " ++
    i.FmtAttrs ++ ">"

/-- `Value` returns the value of the field. -/
def Input.Value (i : Input) : String :=
  i.data.value

/-- `SetValue` sets the given value to the field. -/
def Input.SetValue (i : Input) (v : String) : Input :=
  { i with data := { i.data with value := v } }

/-- The loop body of `Input.Validate`: run the validators in order, stop at
the first one returning an error and wrap it with the field's name. -/
def runValidators (d : InputData) : List (InputData → Option GoError) → Option FieldError
  | [] => none
  | f :: fs =>
    match f d with
    | some err => some (NewFieldError d.name err)
    | none => runValidators d fs

/-- `Validate` loops through the validation funcs and returns the first
error, wrapped with the field's name, or `none`. -/
def Input.Validate (i : Input) : Option FieldError :=
  runValidators i.data i.validators

/-- Result of Go's `strconv.ParseInt(s, 10, 32)`: a parsed value, a range
error (carrying the clamped value that `ParseInt` still returns), or a
syntax error (`ParseInt` returns 0 there). -/
inductive ParseIntResult where
  | ok (v : Int)
  | rangeErr (v : Int)
  | syntaxErr
  deriving DecidableEq

/-- Whether the parse succeeded. -/
def ParseIntResult.isOk : ParseIntResult → Bool
  | .ok _ => true
  | _ => false

/-- The `int64` value `ParseInt` returns alongside its error. -/
def parseIntValue : ParseIntResult → Int
  | .ok v => v
  | .rangeErr v => v
  | .syntaxErr => 0

/-- Accumulate the base-10 value of a digit run; `none` on a non-digit. -/
def digitsVal : List Char → Nat → Option Nat
  | [], acc => some acc
  | c :: rest, acc =>
    if c.isDigit then digitsVal rest (acc * 10 + (c.toNat - 48)) else none

/-- `strconv.ParseInt(s, 10, 32)`: an optional sign followed by at least one
decimal digit; out-of-range values are clamped to the `int32` range with a
range error. -/
def goParseInt32 (s : String) : ParseIntResult :=
  match s.data with
  | [] => .syntaxErr
  | c :: rest =>
    let neg : Bool := c = '-'
    let ds : List Char := if c = '-' ∨ c = '+' then rest else c :: rest
    match ds with
    | [] => .syntaxErr
    | _ =>
      match digitsVal ds 0 with
      | none => .syntaxErr
      | some n =>
        let v : Int := if neg then -(n : Int) else (n : Int)
        if v < -(2 ^ 31 : Int) then .rangeErr (-(2 ^ 31))
        else if v > (2 ^ 31 - 1 : Int) then .rangeErr (2 ^ 31 - 1)
        else .ok v

/-- `fmt.Sprintf("%s is %s than ", name, dir, b)`: the format string has only
two verbs, so the third argument is rendered by `fmt` as an `%!(EXTRA ...)`
suffix. -/
def boundErrMsg (name dir : String) (b : Int) : String :=
  name ++ " is " ++ dir ++ " than " ++ "%!(EXTRA int=" ++ toString b ++ ")"

/-- `integerBound` re-parses the value (ignoring the error) and checks it
against the inclusive `[min, max]` bounds. -/
def integerBound (i : InputData) : Option GoError :=
  let v := parseIntValue (goParseInt32 i.value)
  if v < i.min then some (boundErrMsg i.name "less" i.min)
  else if v > i.max then some (boundErrMsg i.name "more" i.max)
  else none

/-- `isInteger` fails unless the value parses as a base-10 signed integer
fitting 32 bits. -/
def isInteger (i : InputData) : Option GoError :=
  match goParseInt32 i.value with
  | .ok _ => none
  | _ => some "Not a valid integer."

/-- The preset validator pipeline shared by integer inputs. -/
def integerValidators : List (InputData → Option GoError) :=
  [isInteger, integerBound]

/-- `NewIntegerInput` allocates a zero-valued input (empty type and name,
nil attribute map, zero bounds) and appends the two preset integer
validators. -/
def NewIntegerInput : Input :=
  { data := { typ := "", name := "", value := "", classes := [],
              min := 0, max := 0, required := false, attrs := none }
    validators := integerValidators }

/-- `Form` aggregates named fields and owns the action and method. -/
structure Form where
  action : String
  method : String
  fields : List (String × Input)

/-- `NewForm` creates a new form: method `"GET"`, empty action, no fields. -/
def NewForm : Form :=
  { action := "", method := "GET", fields := [] }

/-- `AddInput` stores the given field keyed by its current name, overwriting
any existing field of that name. -/
def Form.AddInput (f : Form) (field : Input) : Form :=
  { f with fields := mapSet f.fields field.Name field }

/-- `SetAction` changes the action attribute. -/
def Form.SetAction (f : Form) (action : String) : Form :=
  { f with action := action }

/-- `Action` returns the action attribute. -/
def Form.Action (f : Form) : String :=
  f.action

/-- `SetMethod` changes the method attribute. -/
def Form.SetMethod (f : Form) (method : String) : Form :=
  { f with method := method }

/-- `Method` returns the method attribute. -/
def Form.Method (f : Form) : String :=
  f.method

/-- `HTML` renders the opening form tag, every field, then the closing tag. -/
def Form.HTML (f : Form) : String :=
  "<form action='" ++ f.action ++ "' method='" ++ f.method ++ "'>" ++
    String.join (f.fields.map (fun p => p.2.toString)) ++ "</form>"

/-- The opaque request source: its HTTP method, the query parameters and the
body parameters, each an ordered list of key/value pairs. -/
structure Request where
  method : String
  query : List (String × String)
  body : List (String × String)

/-- First value stored under `name`; empty string when absent (the lookup
semantics of Go's `url.Values.Get`). -/
def firstValue (ps : List (String × String)) (name : String) : String :=
  match ps.find? (fun p => p.1 = name) with
  | some p => p.2
  | none => ""

/-- The parameters `ParseForm` reads into `PostForm`: the request body, but
only for POST, PUT and PATCH requests. -/
def Request.postForm (r : Request) : List (String × String) :=
  if r.method = "POST" ∨ r.method = "PUT" ∨ r.method = "PATCH" then r.body else []

/-- `Request.FormValue`: first value from the merged parameters, body
parameters taking precedence over the query. -/
def Request.FormValue (r : Request) (name : String) : String :=
  firstValue (r.postForm ++ r.query) name

/-- `Request.PostFormValue`: first value from the body parameters only. -/
def Request.PostFormValue (r : Request) (name : String) : String :=
  firstValue r.postForm name

/-- `Load` binds the submitted values into the fields; a nil request
(`none`) is a no-op.  When the form's method is `"GET"` each field is bound
from `FormValue`, otherwise from `PostFormValue`, always keyed by the
field's key in the form. -/
def Form.Load (f : Form) (r : Option Request) : Form :=
  match r with
  | none => f
  | some req =>
    { f with fields := f.fields.map (fun p =>
        if f.method = "GET" then (p.1, p.2.SetValue (req.FormValue p.1))
        else (p.1, p.2.SetValue (req.PostFormValue p.1))) }

/-- `FormErrors` maps field keys to their validation errors. -/
abbrev FormErrors := List (String × FieldError)

/-- `Validate` runs every field's own `Validate`, collects the failures
keyed by field key, and returns `none` when there are no failures. -/
def Form.Validate (f : Form) : Option FormErrors :=
  let errs : FormErrors :=
    f.fields.filterMap (fun p => (p.2.Validate).map (fun e => (p.1, e)))
  if errs.length > 0 then some errs else none

/-- `Values` returns the map of every field's current value. -/
def Form.Values (f : Form) : List (String × String) :=
  f.fields.map (fun p => (p.1, p.2.Value))

/-- Number of positions at which `pat` occurs in `s` as a contiguous run. -/
def countOccs (pat : List Char) : List Char → Nat
  | [] => if pat.isEmpty then 1 else 0
  | c :: rest =>
    (if pat.isPrefixOf (c :: rest) then 1 else 0) + countOccs pat rest

/-! Concrete fixtures used by the example-level theorems. -/

/-- A caller-supplied validator that always passes. -/
def passV : InputData → Option GoError :=
  fun _ => none

/-- A caller-supplied validator that always fails with the message "boom". -/
def failV : InputData → Option GoError :=
  fun _ => some "boom"

/-- An input with a pass / fail / pass pipeline. -/
def exInput : Input :=
  { data := NewInput.data, validators := [passV, failV, passV] }

/-- An integer field named "age" holding an unparseable value. -/
def exBadForm : Form :=
  NewForm.AddInput ((NewIntegerInput.SetName "age").SetValue "abc")

/-- Integer field state with name "age" and bounds 0 to 130. -/
def exBoundsData : InputData :=
  { typ := "", name := "age", value := "25", classes := [],
    min := 0, max := 130, required := false, attrs := none }

/-- A GET form with one text field "name". -/
def exTextForm : Form :=
  NewForm.AddInput (NewInput.SetName "name")

/-- A GET request whose query holds "name" twice. -/
def exGetRequest : Request :=
  { method := "GET", query := [("name", "Alice"), ("name", "Bob")], body := [] }

/-- Two same-named fields with different values. -/
def exFieldA : Input :=
  (NewInput.SetName "x").SetValue "1"

/-- Second same-named field; added after `exFieldA` it must win. -/
def exFieldB : Input :=
  (NewInput.SetName "x").SetValue "2"

/-- The rendering example: action "/submit", method "POST", one "age" field. -/
def exRenderForm : Form :=
  ((NewForm.SetAction "/submit").SetMethod "POST").AddInput (NewIntegerInput.SetName "age")

/-! Helper lemmas. -/

theorem runValidators_all_none (d : InputData) (vs : List (InputData → Option GoError))
    (h : ∀ g ∈ vs, g d = none) : runValidators d vs = none := by
  induction vs with
  | nil => rfl
  | cons f fs ih =>
    have hf : f d = none := h f (List.mem_cons_self f fs)
    simp only [runValidators, hf]
    exact ih fun g hg => h g (List.mem_cons_of_mem f hg)

theorem runValidators_first_fail (d : InputData) (vs₁ : List (InputData → Option GoError))
    (f : InputData → Option GoError) (vs₂ : List (InputData → Option GoError)) (err : GoError)
    (h1 : ∀ g ∈ vs₁, g d = none) (hf : f d = some err) :
    runValidators d (vs₁ ++ f :: vs₂) = some (NewFieldError d.name err) := by
  induction vs₁ with
  | nil => simp only [List.nil_append, runValidators, hf]
  | cons g gs ih =>
    have hg : g d = none := h1 g (List.mem_cons_self g gs)
    simp only [List.cons_append, runValidators, hg]
    exact ih fun x hx => h1 x (List.mem_cons_of_mem g hx)

/-- Closed form of validating any field with the integer pipeline. -/
theorem integerInput_validate_eq (d : InputData) :
    Input.Validate { data := d, validators := integerValidators } =
      (match goParseInt32 d.value with
       | .ok n =>
         if n < d.min then some (NewFieldError d.name (boundErrMsg d.name "less" d.min))
         else if n > d.max then some (NewFieldError d.name (boundErrMsg d.name "more" d.max))
         else none
       | _ => some (NewFieldError d.name "Not a valid integer.")) := by
  show runValidators d integerValidators = _
  cases hp : goParseInt32 d.value with
  | ok n =>
    have hi : isInteger d = none := by unfold isInteger; rw [hp]
    have hb : integerBound d =
        (if (n : Int) < d.min then some (boundErrMsg d.name "less" d.min)
         else if (n : Int) > d.max then some (boundErrMsg d.name "more" d.max)
         else none) := by
      unfold integerBound
      rw [hp]
      rfl
    simp only [integerValidators, runValidators, hi, hb]
    by_cases h1 : (n : Int) < d.min
    · simp [h1]
    · by_cases h2 : (n : Int) > d.max
      · simp [h1, h2]
      · simp [h1, h2]
  | rangeErr v =>
    have hi : isInteger d = some "Not a valid integer." := by unfold isInteger; rw [hp]
    simp only [integerValidators, runValidators, hi]
  | syntaxErr =>
    have hi : isInteger d = some "Not a valid integer." := by unfold isInteger; rw [hp]
    simp only [integerValidators, runValidators, hi]

/-- The decimal rendering of the violated bound is a substring of the
bounds-error message. -/
theorem toString_infix_boundErrMsg (name dir : String) (b : Int) :
    List.IsInfix (toString b).data (boundErrMsg name dir b).data := by
  refine ⟨(name ++ " is " ++ dir ++ " than " ++ "%!(EXTRA int=").data, ")".data, ?_⟩
  simp [boundErrMsg, String.data_append, List.append_assoc]

/-! Claim theorems. -/

/-- C1: `Input.Validate` runs the validator pipeline in insertion order
passing the field state, returns the first non-nil error wrapped with the
field's current name as a `FieldError` and stops immediately (the validators
after the first failing one are irrelevant to the result), and returns
`none` when every validator passes or the pipeline is empty. -/
theorem validate_runs_pipeline_in_order (i : Input) :
    (i.validators = [] → i.Validate = none) ∧
    ((∀ g ∈ i.validators, g i.data = none) → i.Validate = none) ∧
    (∀ vs₁ f vs₂ err, i.validators = vs₁ ++ f :: vs₂ →
      (∀ g ∈ vs₁, g i.data = none) → f i.data = some err →
      i.Validate = some (NewFieldError i.Name err)) := by
  refine ⟨?_, ?_, ?_⟩
  · intro h
    show runValidators i.data i.validators = none
    rw [h]
    rfl
  · intro h
    exact runValidators_all_none i.data i.validators h
  · intro vs₁ f vs₂ err hsplit h1 hf
    show runValidators i.data i.validators = _
    rw [hsplit]
    exact runValidators_first_fail i.data vs₁ f vs₂ err h1 hf

theorem validate_runs_pipeline_in_order_witness :
    exInput.Validate = some (NewFieldError exInput.Name "boom") :=
  (validate_runs_pipeline_in_order exInput).2.2 [passV] failV [passV] "boom" rfl
    (by
      intro g hg
      rw [List.mem_singleton] at hg
      rw [hg]
      rfl)
    rfl

/-- C3: a string that does not parse as a base-10 signed 32-bit integer makes
an integer field fail with exactly the one error "Not a valid integer."; the
result is the same whatever validator sits after `isInteger`, so
`integerBound` never influences the outcome on unparseable input. -/
theorem integer_unparseable_one_parse_error (d : InputData)
    (h : (goParseInt32 d.value).isOk = false) :
    Input.Validate { data := d, validators := integerValidators } =
      some (NewFieldError d.name "Not a valid integer.") ∧
    (∀ g, Input.Validate { data := d, validators := [isInteger, g] } =
      some (NewFieldError d.name "Not a valid integer.")) := by
  have hi : isInteger d = some "Not a valid integer." := by
    unfold isInteger
    cases hp : goParseInt32 d.value with
    | ok v => rw [hp] at h; simp [ParseIntResult.isOk] at h
    | rangeErr v => rfl
    | syntaxErr => rfl
  constructor
  · show runValidators d integerValidators = _
    simp only [integerValidators, runValidators, hi]
  · intro g
    show runValidators d [isInteger, g] = _
    simp only [runValidators, hi]

theorem integer_unparseable_one_parse_error_witness :
    Input.Validate { data := (NewIntegerInput.SetValue "abc").data,
                     validators := integerValidators } =
      some (NewFieldError "" "Not a valid integer.") :=
  (integer_unparseable_one_parse_error (NewIntegerInput.SetValue "abc").data (by decide)).1

/-- C4: for an integer field whose value parses to `n`, the inclusive bounds
check passes when `min ≤ n ≤ max` (both endpoints pass); when `n < min` it
fails with the "less" message, which contains the decimal rendering of
`min`; when `max < n` (for a proper interval `min ≤ max`) it fails with the
"more" message, which contains the decimal rendering of `max`. -/
theorem integer_bounds_inclusive_messages (d : InputData) (n : Int)
    (hp : goParseInt32 d.value = .ok n) :
    (d.min ≤ n → n ≤ d.max →
      Input.Validate { data := d, validators := integerValidators } = none) ∧
    (n < d.min →
      Input.Validate { data := d, validators := integerValidators } =
        some (NewFieldError d.name (boundErrMsg d.name "less" d.min)) ∧
      List.IsInfix (toString d.min).data (boundErrMsg d.name "less" d.min).data) ∧
    (d.min ≤ d.max → d.max < n →
      Input.Validate { data := d, validators := integerValidators } =
        some (NewFieldError d.name (boundErrMsg d.name "more" d.max)) ∧
      List.IsInfix (toString d.max).data (boundErrMsg d.name "more" d.max).data) := by
  have hval := integerInput_validate_eq d
  rw [hp] at hval
  simp only at hval
  refine ⟨?_, ?_, ?_⟩
  · intro hmin hmax
    rw [hval, if_neg (not_lt.mpr hmin), if_neg (not_lt.mpr hmax)]
  · intro hlt
    exact ⟨by rw [hval, if_pos hlt], toString_infix_boundErrMsg d.name "less" d.min⟩
  · intro hmm hgt
    have h1 : ¬ n < d.min := not_lt.mpr (le_trans hmm (le_of_lt hgt))
    exact ⟨by rw [hval, if_neg h1, if_pos hgt], toString_infix_boundErrMsg d.name "more" d.max⟩

theorem integer_bounds_inclusive_messages_witness :
    Input.Validate { data := exBoundsData, validators := integerValidators } = none ∧
    Input.Validate { data := { exBoundsData with value := "200" },
                     validators := integerValidators } =
      some (NewFieldError "age" (boundErrMsg "age" "more" 130)) ∧
    Input.Validate { data := { exBoundsData with value := "-5" },
                     validators := integerValidators } =
      some (NewFieldError "age" (boundErrMsg "age" "less" 0)) :=
  ⟨(integer_bounds_inclusive_messages exBoundsData 25 (by decide)).1 (by decide) (by decide),
   ((integer_bounds_inclusive_messages { exBoundsData with value := "200" } 200
       (by decide)).2.2 (by decide) (by decide)).1,
   ((integer_bounds_inclusive_messages { exBoundsData with value := "-5" } (-5)
       (by decide)).2.1 (by decide)).1⟩

/-- The branch structure of `Form.Validate` over its collected error list. -/
theorem form_validate_eq (f : Form) :
    f.Validate =
      (if (f.fields.filterMap (fun p => (p.2.Validate).map (fun e => (p.1, e)))).length > 0
       then some (f.fields.filterMap (fun p => (p.2.Validate).map (fun e => (p.1, e))))
       else none) := rfl

/-- C2: `Form.Validate` returns `none` exactly when every field's own
`Validate` returns `none`; otherwise it returns a non-empty error map whose
key set is exactly the set of names of the failing fields (every field is
checked; for fields added through `AddInput` the stored key is the field's
name, which the hypothesis records). -/
theorem form_validate_iff_all_fields_pass (f : Form)
    (hk : ∀ p ∈ f.fields, (p.2).Name = p.1) :
    (f.Validate = none ↔ ∀ p ∈ f.fields, p.2.Validate = none) ∧
    (∀ errs, f.Validate = some errs → errs ≠ [] ∧
      (∀ k, (∃ e, (k, e) ∈ errs) ↔
        ∃ p ∈ f.fields, p.2.Name = k ∧ p.2.Validate ≠ none)) := by
  have hval := form_validate_eq f
  revert hval
  generalize hE : f.fields.filterMap (fun p => (p.2.Validate).map (fun e => (p.1, e))) = E
  intro hval
  have hnil : E = [] ↔ ∀ p ∈ f.fields, p.2.Validate = none := by
    rw [← hE, List.filterMap_eq_nil_iff]
    constructor
    · intro h p hp
      exact Option.map_eq_none'.mp (h p hp)
    · intro h p hp
      rw [Option.map_eq_none']
      exact h p hp
  have hmem : ∀ k, (∃ e, (k, e) ∈ E) ↔
      ∃ p ∈ f.fields, p.2.Name = k ∧ p.2.Validate ≠ none := by
    intro k
    constructor
    · rintro ⟨e, he⟩
      rw [← hE, List.mem_filterMap] at he
      obtain ⟨p, hp, hsome⟩ := he
      obtain ⟨e', he', heq⟩ := Option.map_eq_some'.mp hsome
      refine ⟨p, hp, ?_, ?_⟩
      · rw [hk p hp]
        exact congrArg Prod.fst heq
      · rw [he']
        exact Option.some_ne_none e'
    · rintro ⟨p, hp, hname, hfail⟩
      obtain ⟨e', he'⟩ := Option.ne_none_iff_exists'.mp hfail
      refine ⟨e', ?_⟩
      rw [← hE, List.mem_filterMap]
      refine ⟨p, hp, ?_⟩
      rw [he']
      simp only [Option.map_some']
      rw [← hname, hk p hp]
  constructor
  · rw [hval]
    cases E with
    | nil => simpa using hnil
    | cons a l =>
      simp only [List.length_cons] at *
      rw [if_pos (Nat.succ_pos l.length)]
      constructor
      · intro h
        exact absurd h (by simp)
      · intro h
        exact absurd (hnil.mpr h) (by simp)
  · intro errs hsome
    rw [hval] at hsome
    cases E with
    | nil => simp at hsome
    | cons a l =>
      rw [if_pos (by simp)] at hsome
      obtain rfl : a :: l = errs := Option.some.injEq _ _ ▸ hsome.symm ▸ rfl
      exact ⟨by simp, hmem⟩

theorem form_validate_iff_all_fields_pass_witness :
    ([("age", NewFieldError "age" "Not a valid integer.")] : FormErrors) ≠ [] :=
  ((form_validate_iff_all_fields_pass exBadForm
      (by
        intro p hp
        have hp' : p ∈ [("age", (NewIntegerInput.SetName "age").SetValue "abc")] := hp
        rw [List.mem_singleton] at hp'
        rw [hp']
        rfl)).2
    [("age", NewFieldError "age" "Not a valid integer.")] rfl).1

/-- C5: `Form.Load` on a parsed request rebinds every field (the key set is
unchanged and every field gets a value): with method "GET" each field takes
the first query occurrence of its key (the body source being empty for a GET
exchange), otherwise the first body occurrence; an absent key binds the
empty string, and the first occurrence of a repeated key wins. -/
theorem load_binds_every_field (f : Form) (r : Request) :
    ((f.Load (some r)).fields.map Prod.fst = f.fields.map Prod.fst) ∧
    (f.method = "GET" → r.postForm = [] →
      ∀ p ∈ (f.Load (some r)).fields, p.2.Value = firstValue r.query p.1) ∧
    (f.method ≠ "GET" →
      ∀ p ∈ (f.Load (some r)).fields, p.2.Value = firstValue r.postForm p.1) ∧
    (∀ nm, (∀ q ∈ r.postForm ++ r.query, q.1 ≠ nm) →
      Request.FormValue r nm = "" ∧ Request.PostFormValue r nm = "") ∧
    (∀ nm v ps, firstValue ((nm, v) :: ps) nm = v) := by
  refine ⟨?_, ?_, ?_, ?_, ?_⟩
  · show (f.fields.map _).map Prod.fst = f.fields.map Prod.fst
    rw [List.map_map]
    apply List.map_congr_left
    intro p hp
    by_cases hm : f.method = "GET" <;> simp [hm]
  · intro hm hpost p hp
    show p.2.Value = _
    simp only [Form.Load, List.mem_map] at hp
    obtain ⟨q, hq, hqp⟩ := hp
    rw [if_pos hm] at hqp
    rw [← hqp]
    show r.FormValue q.1 = firstValue r.query q.1
    unfold Request.FormValue
    rw [hpost, List.nil_append]
  · intro hm p hp
    simp only [Form.Load, List.mem_map] at hp
    obtain ⟨q, hq, hqp⟩ := hp
    rw [if_neg hm] at hqp
    rw [← hqp]
    rfl
  · intro nm hno
    constructor
    · unfold Request.FormValue firstValue
      rw [List.find?_eq_none.mpr]
      intro q hq
      simpa using hno q hq
    · unfold Request.PostFormValue firstValue
      rw [List.find?_eq_none.mpr]
      intro q hq
      simpa using hno q (List.mem_append_left _ hq)
  · intro nm v ps
    simp [firstValue, List.find?]

theorem load_binds_every_field_witness :
    ((exTextForm.Load (some exGetRequest)).fields.map Prod.fst =
      exTextForm.fields.map Prod.fst) ∧
    Request.FormValue exGetRequest "missing" = "" :=
  ⟨(load_binds_every_field exTextForm exGetRequest).1,
   ((load_binds_every_field exTextForm exGetRequest).2.2.2.1 "missing" (by decide)).1⟩

/-- Every key of `mapSet m k v` is `k` or a key of `m`. -/
theorem mapSet_keys_sub {α : Type} (m : List (String × α)) (k : String) (v : α) :
    ∀ x ∈ (mapSet m k v).map Prod.fst, x = k ∨ x ∈ m.map Prod.fst := by
  induction m with
  | nil =>
    intro x hx
    simp [mapSet] at hx
    exact Or.inl hx
  | cons p rest ih =>
    intro x hx
    by_cases hp : p.1 = k
    · simp only [mapSet, if_pos hp, List.map_cons, List.mem_cons] at hx
      rcases hx with h | h
      · exact Or.inl h
      · exact Or.inr (by simp [h])
    · simp only [mapSet, if_neg hp, List.map_cons, List.mem_cons] at hx
      rcases hx with h | h
      · exact Or.inr (by simp [h])
      · rcases ih x h with h' | h'
        · exact Or.inl h'
        · exact Or.inr (by simp [h'])

/-- `mapSet` keeps the keys of an association list without duplicates. -/
theorem mapSet_keys_nodup {α : Type} (m : List (String × α)) (k : String) (v : α)
    (h : (m.map Prod.fst).Nodup) : ((mapSet m k v).map Prod.fst).Nodup := by
  induction m with
  | nil => simp [mapSet]
  | cons p rest ih =>
    rw [List.map_cons, List.nodup_cons] at h
    by_cases hp : p.1 = k
    · simp only [mapSet, if_pos hp, List.map_cons, List.nodup_cons]
      exact ⟨hp ▸ h.1, h.2⟩
    · simp only [mapSet, if_neg hp, List.map_cons, List.nodup_cons]
      refine ⟨?_, ih h.2⟩
      intro hmem
      rcases mapSet_keys_sub rest k v p.1 hmem with h' | h'
      · exact hp h'
      · exact h.1 h'

/-- On an association list with distinct keys, `mapSet m k v` stores exactly
one entry under `k`, namely `(k, v)`. -/
theorem mapSet_filter_self {α : Type} (m : List (String × α)) (k : String) (v : α)
    (h : (m.map Prod.fst).Nodup) :
    (mapSet m k v).filter (fun p => decide (p.1 = k)) = [(k, v)] := by
  induction m with
  | nil => simp [mapSet]
  | cons p rest ih =>
    rw [List.map_cons, List.nodup_cons] at h
    by_cases hp : p.1 = k
    · simp only [mapSet, if_pos hp]
      rw [List.filter_cons_of_pos (by simp)]
      rw [List.filter_eq_nil_iff.mpr, List.cons.injEq]
      · exact ⟨rfl, rfl⟩
      · intro q hq
        simp only [decide_eq_true_eq]
        intro hqk
        exact h.1 (by rw [hp, ← hqk]; exact List.mem_map_of_mem Prod.fst hq)
    · simp only [mapSet, if_neg hp]
      rw [List.filter_cons_of_neg (by simpa using hp)]
      exact ih h.2

/-- The key being set is always among the keys afterwards. -/
theorem mapSet_keys_mem {α : Type} (m : List (String × α)) (k : String) (v : α) :
    k ∈ (mapSet m k v).map Prod.fst := by
  induction m with
  | nil => simp [mapSet]
  | cons p rest ih =>
    by_cases hp : p.1 = k
    · simp [mapSet, if_pos hp]
    · simp only [mapSet, if_neg hp, List.map_cons, List.mem_cons]
      exact Or.inr ih

/-- Setting an existing key does not change the number of entries. -/
theorem mapSet_length_of_mem {α : Type} (m : List (String × α)) (k : String) (v : α)
    (h : k ∈ m.map Prod.fst) : (mapSet m k v).length = m.length := by
  induction m with
  | nil => simp at h
  | cons p rest ih =>
    by_cases hp : p.1 = k
    · simp [mapSet, if_pos hp]
    · rw [List.map_cons, List.mem_cons] at h
      rcases h with h | h
      · exact absurd h.symm hp
      · simp only [mapSet, if_neg hp, List.length_cons]
        rw [ih h]

/-- C6: adding a second field under an existing name replaces the first:
afterwards exactly one entry carries that name (the second field), the form
has gained no entry relative to the first add, and `Values` holds exactly
one entry for that name (the second field's value). -/
theorem addinput_same_name_overwrites (f : Form) (a b : Input)
    (hnd : (f.fields.map Prod.fst).Nodup) (hab : a.Name = b.Name) :
    (((f.AddInput a).AddInput b).fields.filter (fun p => decide (p.1 = b.Name)) =
      [(b.Name, b)]) ∧
    ((f.AddInput a).AddInput b).fields.length = (f.AddInput a).fields.length ∧
    (((f.AddInput a).AddInput b).Values.filter (fun p => decide (p.1 = b.Name)) =
      [(b.Name, b.Value)]) := by
  have h1 : ((f.AddInput a).fields.map Prod.fst).Nodup :=
    mapSet_keys_nodup f.fields a.Name a hnd
  have hfields : ((f.AddInput a).AddInput b).fields =
      mapSet (f.AddInput a).fields b.Name b := rfl
  refine ⟨?_, ?_, ?_⟩
  · rw [hfields]
    exact mapSet_filter_self (f.AddInput a).fields b.Name b h1
  · rw [hfields]
    apply mapSet_length_of_mem
    rw [← hab]
    exact mapSet_keys_mem f.fields a.Name a
  · show ((((f.AddInput a).AddInput b).fields.map
        (fun p => (p.1, p.2.Value))).filter (fun p => decide (p.1 = b.Name))) = _
    rw [List.filter_map]
    have hcomp : ((fun p : String × String => decide (p.1 = b.Name)) ∘
        (fun p : String × Input => (p.1, p.2.Value))) =
        (fun p : String × Input => decide (p.1 = b.Name)) := rfl
    rw [hcomp, hfields, mapSet_filter_self (f.AddInput a).fields b.Name b h1]
    rfl

theorem addinput_same_name_overwrites_witness :
    (((NewForm.AddInput exFieldA).AddInput exFieldB).fields.filter
        (fun p => decide (p.1 = exFieldB.Name)) = [(exFieldB.Name, exFieldB)]) ∧
    ((NewForm.AddInput exFieldA).AddInput exFieldB).fields.length =
      (NewForm.AddInput exFieldA).fields.length ∧
    (((NewForm.AddInput exFieldA).AddInput exFieldB).Values.filter
        (fun p => decide (p.1 = exFieldB.Name)) = [(exFieldB.Name, exFieldB.Value)]) :=
  addinput_same_name_overwrites NewForm exFieldA exFieldB (by simp [NewForm]) rfl

/-- C7: `Form.HTML` emits one opening form tag carrying the action and the
method, then each field's rendering concatenated in field order, then one
closing tag; on the example form (action "/submit", method "POST", one
field "age") the output contains exactly one opening tag with
action='/submit' method='POST' and exactly one rendered element for "age". -/
theorem html_one_form_tag_per_field :
    (∀ f : Form, f.HTML =
      "<form action='" ++ f.action ++ "' method='" ++ f.method ++ "'>" ++
        String.join (f.fields.map (fun p => p.2.toString)) ++ "</form>") ∧
    exRenderForm.HTML =
      "<form action='/submit' method='POST'>" ++
        (NewIntegerInput.SetName "age").toString ++ "</form>" ∧
    countOccs "<form ".data exRenderForm.HTML.data = 1 ∧
    countOccs "action='/submit' method='POST'".data exRenderForm.HTML.data = 1 ∧
    countOccs "name='age'".data exRenderForm.HTML.data = 1 ∧
    countOccs "<input ".data exRenderForm.HTML.data = 1 ∧
    countOccs "</form>".data exRenderForm.HTML.data = 1 := by
  refine ⟨fun f => rfl, ?_, ?_, ?_, ?_, ?_, ?_⟩ <;> decide

/-- C8 counterexample: `NewIntegerInput` bypasses `NewInput`, so its kind is
the zero value "", not the `"text"` that the base constructor `NewInput`
establishes. -/
theorem newintegerinput_kind_differs_from_newinput :
    NewIntegerInput.data.typ = "" ∧ NewInput.data.typ = "text" ∧
    ¬ NewIntegerInput.data.typ = NewInput.data.typ :=
  ⟨rfl, rfl, by decide⟩

/-- C8 amended: a field built by `NewIntegerInput` has every base field at
its zero value (kind "", nil attribute map, empty classes, zero bounds) and
carries exactly the two preset validators, so it differs from a
`NewInput`-built field in its kind ("" versus "text") and in the attribute
map being nil versus initialized, besides the validators. -/
theorem newintegerinput_zero_value_base :
    NewIntegerInput.data.typ = "" ∧
    NewIntegerInput.data.name = "" ∧
    NewIntegerInput.data.value = "" ∧
    NewIntegerInput.data.classes = [] ∧
    NewIntegerInput.data.min = 0 ∧
    NewIntegerInput.data.max = 0 ∧
    NewIntegerInput.data.required = false ∧
    NewIntegerInput.data.attrs = none ∧
    NewInput.data.attrs = some [] ∧
    NewIntegerInput.validators = integerValidators :=
  ⟨rfl, rfl, rfl, rfl, rfl, rfl, rfl, rfl, rfl, rfl⟩

/-- C9: a fresh `NewIntegerInput` has `min = 0` and `max = 0`, so after
setting any value its validation succeeds exactly when the value parses as a
base-10 32-bit integer equal to 0, and any value parsing to a non-zero
integer fails the bounds validator (with the "less" message for negative and
the "more" message for positive values). -/
theorem newintegerinput_validate_iff_zero (s : String) :
    NewIntegerInput.data.min = 0 ∧ NewIntegerInput.data.max = 0 ∧
    ((NewIntegerInput.SetValue s).Validate = none ↔ goParseInt32 s = .ok 0) ∧
    (∀ n : Int, goParseInt32 s = .ok n → n ≠ 0 →
      (NewIntegerInput.SetValue s).Validate =
        some (NewFieldError "" (boundErrMsg "" (if n < 0 then "less" else "more") 0))) := by
  have hval : (NewIntegerInput.SetValue s).Validate =
      (match goParseInt32 s with
       | .ok n =>
         if n < (0 : Int) then some (NewFieldError "" (boundErrMsg "" "less" 0))
         else if n > (0 : Int) then some (NewFieldError "" (boundErrMsg "" "more" 0))
         else none
       | _ => some (NewFieldError "" "Not a valid integer.")) :=
    integerInput_validate_eq (NewIntegerInput.SetValue s).data
  refine ⟨rfl, rfl, ?_, ?_⟩
  · rw [hval]
    cases hp : goParseInt32 s with
    | ok n =>
      simp only [ParseIntResult.ok.injEq]
      rcases lt_trichotomy n 0 with h | h | h
      · rw [if_pos h]
        exact iff_of_false (by simp) (by omega)
      · subst h
        rw [if_neg (by omega), if_neg (by omega)]
        exact iff_of_true rfl rfl
      · rw [if_neg (by omega), if_pos h]
        exact iff_of_false (by simp) (by omega)
    | rangeErr v => exact iff_of_false (by simp) (by simp)
    | syntaxErr => exact iff_of_false (by simp) (by simp)
  · intro n hp hn0
    rw [hval, hp]
    rcases lt_or_gt_of_ne hn0 with h | h
    · simp [h]
    · have h' : ¬ n < 0 := by omega
      simp [h, h']

theorem newintegerinput_validate_iff_zero_witness :
    (NewIntegerInput.SetValue "0").Validate = none ∧
    (NewIntegerInput.SetValue "5").Validate =
      some (NewFieldError "" (boundErrMsg "" "more" 0)) := by
  constructor
  · exact (newintegerinput_validate_iff_zero "0").2.2.1.mpr (by decide)
  · have h := (newintegerinput_validate_iff_zero "5").2.2.2 5 (by decide) (by decide)
    rw [if_neg (by decide)] at h
    exact h

/-- C10: `NewIntegerInput` leaves the attribute map nil (it bypasses
`NewInput`), so `AddAttr` on a fresh integer input writes to a nil map and
faults, while on a `NewInput`-constructed field the map is initialized and
`AddAttr` always succeeds. -/
theorem addattr_faults_on_integerinput (k v : String) :
    NewIntegerInput.AddAttr k v = none ∧
    ∃ i : Input, NewInput.AddAttr k v = some i :=
  ⟨rfl, ⟨_, rfl⟩⟩

theorem addattr_faults_on_integerinput_witness :
    NewIntegerInput.AddAttr "id" "age-input" = none ∧
    ∃ i : Input, NewInput.AddAttr "id" "age-input" = some i :=
  addattr_faults_on_integerinput "id" "age-input"

end Forms
